import Mathlib

/-!
Verification of the minerx controllers (Chain / Miner / MinerSet reconcilers)
against their natural-language specification.  The Go sources are shallowly
embedded: Kubernetes objects become Lean structures, the object store and its
fallible calls become explicit parameters and oracles, and each reconciliation
function becomes a pure Lean function over those.
-/

namespace Minerx

/-! ## Condition ledger (pkg/condition)

`metav1.Condition` carries a type, a status string (`"True"` / `"False"` /
`"Unknown"`), a reason, a message and a last-transition time.  Times are
modelled as natural numbers supplied by the caller (`metav1.Now()` becomes an
explicit `now` argument). -/

structure Condition where
  ctype : String
  status : String
  reason : String
  message : String
  lastTransitionTime : Nat
deriving DecidableEq, Repr

/-- Embedding of `TrueCondition` from pkg/condition/setter: a condition with
`Status=True` and only the type and transition time filled in. -/
def TrueCondition (conditionType : String) (now : Nat) : Condition :=
  { ctype := conditionType
    status := "True"
    reason := ""
    message := ""
    lastTransitionTime := now }

/-- Embedding of `FalseCondition` from pkg/condition/setter: a condition with
`Status=False`, the given reason and message. -/
def FalseCondition (conditionType reason message : String) (now : Nat) : Condition :=
  { ctype := conditionType
    status := "False"
    reason := reason
    message := message
    lastTransitionTime := now }

/-- Embedding of `setCondition` from pkg/condition/setter: walk the list, and at the first
entry of the same type replace it only when status, reason or message differ
(otherwise the stored entry, with its transition time, is kept); when no entry
of that type exists, append the new condition at the end. -/
def setCondition : List Condition → Condition → List Condition
  | [], c => [c]
  | x :: xs, c =>
    if x.ctype = c.ctype then
      (if x.status ≠ c.status ∨ x.reason ≠ c.reason ∨ x.message ≠ c.message
        then c else x) :: xs
    else
      x :: setCondition xs c

/-- Embedding of `Set` from pkg/condition/setter, specialised to the condition list the
`Setter` interface exposes. -/
def Set (conditions : List Condition) (c : Condition) : List Condition :=
  setCondition conditions c

/-- Embedding of `SetTrue` from pkg/condition/setter. -/
def SetTrue (conditions : List Condition) (conditionType : String) (now : Nat) :
    List Condition :=
  Set conditions (TrueCondition conditionType now)

/-- Embedding of `SetFalse` from pkg/condition/setter. -/
def SetFalse (conditions : List Condition) (conditionType reason message : String)
    (now : Nat) : List Condition :=
  Set conditions (FalseCondition conditionType reason message now)

/-- Embedding of `Get` from pkg/condition/getter.go: the first condition of the given type,
if any. -/
def Get (conditions : List Condition) (conditionType : String) : Option Condition :=
  conditions.find? (fun c => c.ctype = conditionType)

/-- Number of entries of a given condition type in a list. -/
def typeCount (conditions : List Condition) (t : String) : Nat :=
  (conditions.filter (fun c => c.ctype = t)).length

/-! ## Labels and owner references -/

/-- Labels are association lists; lookup returns the first binding, matching
Go map semantics on well-formed (duplicate-free) label sets. -/
def lookupLabel (labels : List (String × String)) (k : String) : Option String :=
  match labels.find? (fun kv => kv.1 = k) with
  | some kv => some kv.2
  | none => none

/-- Insert-or-overwrite one label binding (Go `labels[k] = v`). -/
def labelInsert (labels : List (String × String)) (k v : String) :
    List (String × String) :=
  if (labels.find? (fun kv => kv.1 = k)).isSome then
    labels.map (fun kv => if kv.1 = k then (k, v) else kv)
  else
    labels ++ [(k, v)]

/-- A label selector map matches an object when every selector pair is present
among the object labels (`labels.Set(sel).AsSelectorPreValidated().Matches`). -/
def labelsMatch (sel objLabels : List (String × String)) : Bool :=
  sel.all (fun kv => lookupLabel objLabels kv.1 = some kv.2)

/-- Embedding of `metav1.OwnerReference`: kind, name, uid and the controller /
block-owner-deletion flags (absent pointer flags are `false`). -/
structure OwnerRef where
  kind : String
  name : String
  uid : String
  controller : Bool
  blockOwnerDeletion : Bool
deriving DecidableEq, Repr

/-- Embedding of `metav1.GetControllerOf`: the first owner reference with the controller
flag set. -/
def getControllerOf (refs : List OwnerRef) : Option OwnerRef :=
  refs.find? (fun r => r.controller)

/-- Embedding of `metav1.IsControlledBy`: the controller reference exists and carries the
candidate owner uid. -/
def isControlledBy (refs : List OwnerRef) (ownerUID : String) : Bool :=
  match getControllerOf refs with
  | some r => r.uid = ownerUID
  | none => false

/-! ## Data model (api/v1alpha1)

Only the fields the reconcilers read or write are embedded.  `metav1.Time`
and `metav1.Duration` become `Nat` (seconds); a deletion timestamp of `none`
is the Go zero time (`DeletionTimestamp.IsZero()`). -/

/-- The backing workload unit (`corev1.Pod`).  Spec fields are what
`createPodSpec` fills in (a single container image/command, restart policy);
status fields are what `syncPodStatus` observes.  Pod conditions are
(type, status) string pairs; `podIPs` is the list of reported IP strings. -/
structure Pod where
  name : String
  nspace : String
  labels : List (String × String)
  ownerReferences : List OwnerRef
  image : String
  command : List String
  restartPolicy : String
  phase : String
  conditions : List (String × String)
  podIPs : List String
  message : String
deriving DecidableEq, Repr

/-- Embedding of `MinerSpec` (api/v1alpha1/miner_types.go): the pod-deletion timeout is an
optional duration in seconds (`nil` means "use the 10s default"; its doc
comment states that a duration of 0 retries deletion indefinitely). -/
structure MinerSpec where
  displayName : String
  minerType : String
  chainName : String
  restartPolicy : String
  podDeletionTimeout : Option Nat
deriving DecidableEq, Repr

/-- Embedding of `MinerStatus` (api/v1alpha1/miner_types.go).  `podRef` keeps only the
referenced pod name; `failureReason` mirrors the optional string pointer. -/
structure MinerStatus where
  podRef : Option String
  phase : String
  failureReason : Option String
  addresses : List String
  observedGeneration : Int
  conditions : List Condition
  lastUpdated : Option Nat
deriving DecidableEq, Repr

/-- Embedding of `Miner` (api/v1alpha1/miner_types.go) with the object metadata the
controllers use. -/
structure Miner where
  name : String
  nspace : String
  uid : String
  generation : Int
  labels : List (String × String)
  ownerReferences : List OwnerRef
  finalizers : List String
  deletionTimestamp : Option Nat
  spec : MinerSpec
  status : MinerStatus
deriving DecidableEq, Repr

/-- Embedding of `MinerSetSpec` (MinerSet types file): desired replica count (optional
int32 pointer), the label selector as a match-labels map, the template labels
and the delete policy string. -/
structure MinerSetSpec where
  replicas : Option Int
  selector : List (String × String)
  templateLabels : List (String × String)
  templateChainName : String
  deletePolicy : String
deriving DecidableEq, Repr

/-- Embedding of `MinerSetStatus` (MinerSet types file): the four aggregated counters and
the condition set.  Counters are list lengths, so the Go `int32` conversions
are modelled as the identity. -/
structure MinerSetStatus where
  replicas : Nat
  fullyLabeledReplicas : Nat
  readyReplicas : Nat
  availableReplicas : Nat
  observedGeneration : Int
  conditions : List Condition
deriving DecidableEq, Repr

/-- Embedding of `MinerSet` with the object metadata the controller uses. -/
structure MinerSet where
  name : String
  nspace : String
  uid : String
  labels : List (String × String)
  finalizers : List String
  deletionTimestamp : Option Nat
  spec : MinerSetSpec
  status : MinerSetStatus
deriving DecidableEq, Repr

/-- Embedding of `ChainSpec` (api/v1alpha1/chain_types.go). -/
structure ChainSpec where
  displayName : String
  minerType : String
  image : String
deriving DecidableEq, Repr

/-- Embedding of `ChainStatus` (api/v1alpha1/chain_types.go): the two
`LocalObjectReference`s keep only the referenced name. -/
structure ChainStatus where
  configMapRef : Option String
  minerRef : Option String
  observedGeneration : Int
  conditions : List Condition
deriving DecidableEq, Repr

/-- Embedding of `Chain` with the object metadata the controller uses. -/
structure Chain where
  name : String
  nspace : String
  uid : String
  generation : Int
  finalizers : List String
  deletionTimestamp : Option Nat
  spec : ChainSpec
  status : ChainStatus
deriving DecidableEq, Repr

/-- Embedding of `corev1.ConfigMap` as the chain controller builds it: metadata
(name / generateName / namespace / labels / owner references) and the string
data map. -/
structure ConfigMap where
  name : String
  generateName : String
  nspace : String
  labels : List (String × String)
  ownerReferences : List OwnerRef
  data : List (String × String)
deriving DecidableEq, Repr

/-! ## Bounded polling (k8s.io/apimachinery wait)

`wait.PollUntilContextTimeout(ctx, interval, timeout, immediate=true, cond)`
sets a deadline `timeout` from the start (`context.WithTimeout`; a zero
timeout is already expired), runs the condition once immediately, and then
re-runs it every `interval` for as long as the deadline has not passed (an
expired deadline wins the select and surfaces `context.DeadlineExceeded`).
Attempt `n` therefore happens at time `n * interval`, and attempts beyond the
immediate one require `n * interval < timeout`. -/

/-- Number of condition attempts the poll executes when the condition keeps
returning false: the immediate one, plus one per elapsed `interval` strictly
before the deadline. -/
def numPollAttempts (interval timeout : Nat) : Nat :=
  if timeout = 0 then 1 else 1 + (timeout - 1) / interval

/-- Whether the poll succeeds: some executed attempt returns true.  `cond n`
is the outcome of the n-th attempt; a `false` overall result is the poll
surfacing `context.DeadlineExceeded`. -/
def pollUntilContextTimeout (interval timeout : Nat) (cond : Nat → Bool) : Bool :=
  (List.range (numPollAttempts interval timeout)).any cond

/-! ## Miner controller (unit lifecycle manager) -/

namespace MinerReconciler

/-- Embedding of `createPodSpec`: the backing pod built deterministically from the Miner.
The image is keyed on the size class with `busybox` as the fallback; the base
labels are merged with the labels of the Miner itself (Go map writes become
insert-or-overwrite); the restart policy defaults to `Always` when unset.
The observed-status fields of the pod start empty. -/
def createPodSpec (miner : Miner) : Pod :=
  let image :=
    if miner.spec.minerType = "small" then "nginx:alpine"
    else if miner.spec.minerType = "medium" then "nginx"
    else if miner.spec.minerType = "large" then "redis:alpine"
    else "busybox"
  let command := ["sh", "-c", "sleep 3600"]
  let baseLabels : List (String × String) :=
    [("app", "miner"), ("miner.onex.io/name", miner.name),
     ("chain.onex.io/name", miner.spec.chainName)]
  let podLabels := miner.labels.foldl (fun acc kv => labelInsert acc kv.1 kv.2) baseLabels
  let pod : Pod :=
    { name := miner.name
      nspace := miner.nspace
      labels := podLabels
      ownerReferences := [⟨"Miner", miner.name, miner.uid, true, true⟩]
      image := image
      command := command
      restartPolicy := miner.spec.restartPolicy
      phase := ""
      conditions := []
      podIPs := []
      message := "" }
  if pod.restartPolicy = "" then { pod with restartPolicy := "Always" } else pod

/-- Embedding of `isPodReady`: some pod condition of type `Ready` has status `True`. -/
def isPodReady (pod : Pod) : Bool :=
  pod.conditions.any (fun c => c.1 = "Ready" ∧ c.2 = "True")

/-- Embedding of `syncPodStatus`: re-derive the Miner phase and conditions from the
backing pod.  The pod argument is the result of the store `Get` (`none` is
NotFound; transport errors, which the source merely propagates, are not
modelled).  The Go `switch` has no case for `Succeeded`/`Unknown` pod phases,
so those leave the Miner unchanged. -/
def syncPodStatus (now : Nat) (miner : Miner) (pod : Option Pod) : Miner :=
  match pod with
  | none =>
    { miner with status := { miner.status with
        phase := "Pending"
        conditions :=
          SetFalse miner.status.conditions "PodHealthy" "PodNotFound" "Pod not found" now } }
  | some p =>
    if p.phase = "Running" then
      if isPodReady p then
        { miner with status := { miner.status with
            phase := "Running"
            conditions :=
              SetTrue (SetTrue miner.status.conditions "PodHealthy" now) "BootstrapReady" now
            addresses := p.podIPs } }
      else
        { miner with status := { miner.status with
            phase := "Provisioning"
            conditions :=
              SetFalse miner.status.conditions "PodHealthy" "Provisioning"
                "Pod is not ready yet" now } }
    else if p.phase = "Pending" then
      { miner with status := { miner.status with
          phase := "Provisioning"
          conditions :=
            SetFalse miner.status.conditions "PodHealthy" "Provisioning"
              "Pod is pending" now } }
    else if p.phase = "Failed" then
      { miner with status := { miner.status with
          phase := "Failed"
          conditions :=
            SetFalse miner.status.conditions "PodHealthy" "Failed" "Pod failed" now
          failureReason := some (if p.message ≠ "" then p.message else "Pod failed") } }
    else miner

/-- Embedding of `reconcileDelete`: set the `PodHealthy` condition to
False/`Deleting`, then, when the backing pod is present, poll its deletion
(interval 2s) up to the spec timeout (default 10s when the field is nil); on
poll timeout set False/`MinerDeletionFailed` and surface the deadline error;
otherwise remove the finalizer.  `pod` is the store `Get` result (`none` is
NotFound) and `deleteOk n` the outcome of the n-th delete attempt (`true`
when `Delete` returned nil or NotFound).  Status updates are modelled as
succeeding; the returned Miner is the object as written back. -/
def reconcileDelete (now : Nat) (miner : Miner) (pod : Option Pod)
    (deleteOk : Nat → Bool) : Miner × Option String :=
  let m1 := { miner with status := { miner.status with
      conditions :=
        SetFalse miner.status.conditions "PodHealthy" "Deleting" "Deleting pod" now } }
  match pod with
  | none =>
    ({ m1 with finalizers := m1.finalizers.filter (fun f => f ≠ "miner.onex.io/finalizer") },
     none)
  | some _ =>
    let timeout :=
      match miner.spec.podDeletionTimeout with
      | some d => d
      | none => 10
    if pollUntilContextTimeout 2 timeout deleteOk then
      ({ m1 with finalizers := m1.finalizers.filter (fun f => f ≠ "miner.onex.io/finalizer") },
       none)
    else
      ({ m1 with status := { m1.status with
          conditions :=
            SetFalse m1.status.conditions "PodHealthy" "MinerDeletionFailed"
              "Failed to delete pod" now } },
       some "context deadline exceeded")

end MinerReconciler

/-! ## MinerSet controller (replica-set synchronizer) -/

namespace MinerSetReconciler

/-- Embedding of `metav1.NewControllerRef(ms, msKind)`: a controller-flagged,
block-owner-deletion owner reference to the MinerSet. -/
def newControllerRef (ms : MinerSet) : OwnerRef :=
  ⟨"MinerSet", ms.name, ms.uid, true, true⟩

/-- Embedding of `shouldExcludeMiner`: a Miner with a controller owner reference that is
not this MinerSet is excluded. -/
def shouldExcludeMiner (ms : MinerSet) (miner : Miner) : Bool :=
  (getControllerOf miner.ownerReferences).isSome &&
    !isControlledBy miner.ownerReferences ms.uid

/-- Embedding of `adoptOrphan`: append a controller owner reference for this MinerSet to
the Miner via a merge patch computed from a copy of the prior object — only
the owner-reference list changes. -/
def adoptOrphan (ms : MinerSet) (miner : Miner) : Miner :=
  { miner with ownerReferences := miner.ownerReferences ++ [newControllerRef ms] }

/-- The filter loop of `MinerSetReconciler.reconcile`: drop Miners controlled
by another owner; adopt orphans (no controller reference), skipping — with
`continue`, not an error — any whose adoption patch fails; keep the rest.
`patchOk m` is the oracle for whether the store accepts the adoption patch
for `m`. -/
def filterMiners (ms : MinerSet) (patchOk : Miner → Bool) :
    List Miner → List Miner
  | [] => []
  | miner :: rest =>
    if shouldExcludeMiner ms miner then
      filterMiners ms patchOk rest
    else if getControllerOf miner.ownerReferences = none then
      if patchOk miner then
        adoptOrphan ms miner :: filterMiners ms patchOk rest
      else
        filterMiners ms patchOk rest
    else
      miner :: filterMiners ms patchOk rest

/-- Embedding of `getMinersToDelete`: everything when the surplus covers the whole list,
otherwise the first `count` in listed order for `Newest` and the default
(`Random` or anything else), and the last `count` for `Oldest`. -/
def getMinersToDelete (ms : MinerSet) (miners : List Miner) (count : Nat) :
    List Miner :=
  if miners.length ≤ count then miners
  else
    if ms.spec.deletePolicy = "Newest" then miners.take count
    else if ms.spec.deletePolicy = "Oldest" then miners.drop (miners.length - count)
    else miners.take count

/-- Embedding of `deleteMiners`, reified as the list of Miners a `Delete` call is issued
for: Miners already carrying a deletion timestamp are skipped.  Store delete
errors (propagated by the source) are not modelled. -/
def deleteMiners : List Miner → List Miner
  | [] => []
  | miner :: rest =>
    if miner.deletionTimestamp ≠ none then deleteMiners rest
    else miner :: deleteMiners rest

/-- The store effect `syncReplicas` decides on: create `count` Miners from
the template, issue deletes for the selected Miners, or nothing. -/
inductive SyncAction where
  | scaleUp (count : Nat)
  | scaleDown (deleted : List Miner)
  | noop
deriving DecidableEq, Repr

/-- Embedding of `syncReplicas`: a nil `spec.replicas` is an error; otherwise compare the
filtered Miner count with the desired count, scale up or down, and set the
`MinersCreated` / `Resized` conditions accordingly.  Creations and deletions
are reified in the returned `SyncAction` (store create/delete failures, which
the source merely propagates, are not modelled). -/
def syncReplicas (now : Nat) (ms : MinerSet) (miners : List Miner) :
    Except String (MinerSet × SyncAction) :=
  match ms.spec.replicas with
  | none => .error "Replicas field in MinerSet spec is nil"
  | some r =>
    let diff : Int := (miners.length : Int) - r
    if diff < 0 then
      let conds :=
        SetFalse (SetTrue ms.status.conditions "MinersCreated" now)
          "Resized" "Creating" "Creating miners" now
      .ok ({ ms with status := { ms.status with conditions := conds } },
           .scaleUp (-diff).toNat)
    else if 0 < diff then
      let minersToDelete := getMinersToDelete ms miners diff.toNat
      let conds :=
        SetFalse (SetTrue ms.status.conditions "MinersCreated" now)
          "Resized" "Deleting" "Deleting miners" now
      .ok ({ ms with status := { ms.status with conditions := conds } },
           .scaleDown (deleteMiners minersToDelete))
    else
      let conds := SetTrue (SetTrue ms.status.conditions "MinersCreated" now) "Resized" now
      .ok ({ ms with status := { ms.status with conditions := conds } }, .noop)

/-- Embedding of `updateStatus`: recompute the four counters from the filtered list
(fully-labeled = template labels all present; ready = phase `Running`;
available = ready and observed generation equal to the own metadata
generation) and set `MinersReady` True exactly when every Miner is ready.
The status write is modelled as succeeding; the returned MinerSet is the
object as written back. -/
def updateStatus (now : Nat) (ms : MinerSet) (miners : List Miner) : MinerSet :=
  let fullyLabeledReplicasCount :=
    (miners.filter (fun m => labelsMatch ms.spec.templateLabels m.labels)).length
  let readyReplicasCount :=
    (miners.filter (fun m => m.status.phase = "Running")).length
  let availableReplicasCount :=
    (miners.filter (fun m =>
      m.status.phase = "Running" ∧ m.status.observedGeneration = m.generation)).length
  let st : MinerSetStatus := { ms.status with
    replicas := miners.length
    fullyLabeledReplicas := fullyLabeledReplicasCount
    readyReplicas := readyReplicasCount
    availableReplicas := availableReplicasCount }
  let conds :=
    if st.readyReplicas = st.replicas then
      SetTrue st.conditions "MinersReady" now
    else
      SetFalse st.conditions "MinersReady" "Unavailable" "Not all miners are ready" now
  { ms with status := { st with conditions := conds } }

end MinerSetReconciler

/-! ## Chain controller (resource-group owner) -/

namespace ChainReconciler

/-- The slice of the object store the chain reconciler touches: the
ConfigMaps and Miners of the namespace, plus oracles for whether the two
label-scoped `List` calls fail. -/
structure ChainWorld where
  configMaps : List ConfigMap
  miners : List Miner
  cmListErr : Bool
  minerListErr : Bool
deriving Repr

/-- Embedding of `metav1.NewControllerRef(chain, chainKind)`. -/
def chainControllerRef (chain : Chain) : OwnerRef :=
  ⟨"Chain", chain.name, chain.uid, true, true⟩

/-- Embedding of `createConfigMap` (the method): builds — but does not store — the
ConfigMap, with a generated name (`GenerateName` is only resolved to a real
name by the store at create time, so the name of the built object is empty), the
chain-name label, a controller owner reference to the chain, and the config
data. -/
def createConfigMap (chain : Chain) : ConfigMap :=
  { name := ""
    generateName := chain.name ++ "-"
    nspace := chain.nspace
    labels := [("chain.onex.io/name", chain.name)]
    ownerReferences := [chainControllerRef chain]
    data := [("chainName", chain.name), ("image", chain.spec.image)] }

/-- Embedding of `createMinerForChain` (the method): builds — but does not store — the
genesis Miner, named after the chain, with the chain-name label, a controller
owner reference to the chain, and a spec derived from the chain spec. -/
def createMinerForChain (chain : Chain) : Miner :=
  { name := chain.name
    nspace := chain.nspace
    uid := ""
    generation := 0
    labels := [("chain.onex.io/name", chain.name)]
    ownerReferences := [chainControllerRef chain]
    finalizers := []
    deletionTimestamp := none
    spec :=
      { displayName := ""
        minerType := chain.spec.minerType
        chainName := chain.name
        restartPolicy := "Always"
        podDeletionTimeout := none }
    status :=
      { podRef := none
        phase := ""
        failureReason := none
        addresses := []
        observedGeneration := 0
        conditions := []
        lastUpdated := none } }

/-- Embedding of `IsConfigMapReconciled`: list the ConfigMaps of the namespace carrying the
`chain.onex.io/name = <chain>` label; the phase counts as reconciled when
the result is non-empty. -/
def IsConfigMapReconciled (w : ChainWorld) (chain : Chain) : Except String Bool :=
  if w.cmListErr then .error "failed to list ConfigMaps"
  else
    .ok (((w.configMaps.filter (fun cm =>
      cm.nspace = chain.nspace &&
        labelsMatch [("chain.onex.io/name", chain.name)] cm.labels)).length) ≠ 0)

/-- Embedding of `IsMinerReconciled`: the same label-scoped existence check over Miners. -/
def IsMinerReconciled (w : ChainWorld) (chain : Chain) : Except String Bool :=
  if w.minerListErr then .error "failed to list Miners"
  else
    .ok (((w.miners.filter (fun m =>
      m.nspace = chain.nspace &&
        labelsMatch [("chain.onex.io/name", chain.name)] m.labels)).length) ≠ 0)

/-- Embedding of `reconcileConfigMap` phase: when the existence check finds nothing, build
the ConfigMap, record its (empty, never-generated) name in
`status.configMapRef` and set `ConfigMapsCreated` True.  The source never
issues a store `Create` for the built ConfigMap, so the world is untouched;
the build step cannot fail, so the False/`Failed` condition branch of the
source is dead code. -/
def reconcileConfigMap (now : Nat) (w : ChainWorld) (chain : Chain) :
    Except String Chain :=
  match IsConfigMapReconciled w chain with
  | .error e => .error e
  | .ok true => .ok chain
  | .ok false =>
    let cm := createConfigMap chain
    let chain1 := { chain with status := { chain.status with configMapRef := some cm.name } }
    .ok { chain1 with status := { chain1.status with
      conditions := SetTrue chain1.status.conditions "ConfigMapsCreated" now } }

/-- Embedding of `reconcileMiner` phase: when the existence check finds nothing, build the
Miner, record its name in `status.minerRef` if unset and set `MinersCreated`
True.  As with the ConfigMap phase, no store `Create` is ever issued. -/
def reconcileMiner (now : Nat) (w : ChainWorld) (chain : Chain) :
    Except String Chain :=
  match IsMinerReconciled w chain with
  | .error e => .error e
  | .ok true => .ok chain
  | .ok false =>
    let miner := createMinerForChain chain
    let chain1 :=
      if chain.status.minerRef = none then
        { chain with status := { chain.status with minerRef := some miner.name } }
      else chain
    .ok { chain1 with status := { chain1.status with
      conditions := SetTrue chain1.status.conditions "MinersCreated" now } }

/-- Result of one pass of `ChainReconciler.reconcile`: the store slice (never
written to by the phases), the Chain as written back, the phases the loop
invoked in order, and the surfaced error if any. -/
structure ChainReconcileResult where
  world : ChainWorld
  chain : Chain
  phasesRun : List String
  err : Option String
deriving Repr

/-- Embedding of `reconcile` (non-deleting path): ensure the finalizer, then run the two
phases in order, returning the first phase error immediately (the source
`for` loop returns inside the loop body on error); on success stamp
`status.observedGeneration` and persist status (modelled as succeeding).
`phasesRun` records which phase functions the loop actually invoked. -/
def reconcile (now : Nat) (w : ChainWorld) (chain0 : Chain) : ChainReconcileResult :=
  let chain1 :=
    if "chain.onex.io/finalizer" ∈ chain0.finalizers then chain0
    else { chain0 with finalizers := chain0.finalizers ++ ["chain.onex.io/finalizer"] }
  match reconcileConfigMap now w chain1 with
  | .error e => ⟨w, chain1, ["reconcileConfigMap"], some e⟩
  | .ok chain2 =>
    match reconcileMiner now w chain2 with
    | .error e => ⟨w, chain2, ["reconcileConfigMap", "reconcileMiner"], some e⟩
    | .ok chain3 =>
      ⟨w,
       { chain3 with status := { chain3.status with observedGeneration := chain3.generation } },
       ["reconcileConfigMap", "reconcileMiner"],
       none⟩

end ChainReconciler

/-! ## Derived predicates and concrete instances used in statements -/

/-- Distinct-type predicate for condition lists: at most one entry per
condition type, phrased as pairwise distinct types. -/
def typesUnique (l : List Condition) : Prop :=
  l.Pairwise (fun a b => a.ctype ≠ b.ctype)

instance (l : List Condition) : Decidable (typesUnique l) := by
  unfold typesUnique; infer_instance

/-- The ledger entry of the given type exists and carries the given status
and reason (its transition time is unconstrained: an identical re-update
keeps the old entry). -/
def conditionIs (conds : List Condition) (t status reason : String) : Prop :=
  ∃ c, Get conds t = some c ∧ c.status = status ∧ c.reason = reason

instance instDecidableConditionIs (conds : List Condition)
    (t status reason : String) : Decidable (conditionIs conds t status reason) :=
  match h : Get conds t with
  | none => .isFalse (fun hex => by
      rcases hex with ⟨d, hd, _, _⟩
      rw [h] at hd
      cases hd)
  | some c =>
    if hs : c.status = status ∧ c.reason = reason then
      .isTrue ⟨c, h, hs.1, hs.2⟩
    else
      .isFalse (fun hex => by
        rcases hex with ⟨d, hd, hds, hdr⟩
        rw [h] at hd
        cases hd
        exact hs ⟨hds, hdr⟩)

/-- Concrete condition list and update used by the C10 witness. -/
def demoConds : List Condition :=
  [{ ctype := "MinersReady", status := "True", reason := "", message := "",
     lastTransitionTime := 5 }]

/-- An identical update (later timestamp) for the C10 witness. -/
def demoCond : Condition :=
  { ctype := "MinersReady", status := "True", reason := "", message := "",
    lastTransitionTime := 9 }

/-- Concrete Miner used by witnesses: size class `medium`, one custom label,
no restart policy. -/
def demoMiner : Miner :=
  { name := "m1"
    nspace := "default"
    uid := "uid-m1"
    generation := 1
    labels := [("team", "core")]
    ownerReferences := []
    finalizers := []
    deletionTimestamp := none
    spec :=
      { displayName := ""
        minerType := "medium"
        chainName := "c1"
        restartPolicy := ""
        podDeletionTimeout := none }
    status :=
      { podRef := none
        phase := ""
        failureReason := none
        addresses := []
        observedGeneration := 0
        conditions := []
        lastUpdated := none } }

/-- Concrete MinerSet used by witnesses: one desired replica, `Random`
delete policy. -/
def demoMinerSet : MinerSet :=
  { name := "ms1"
    nspace := "default"
    uid := "uid-ms1"
    labels := []
    finalizers := []
    deletionTimestamp := none
    spec :=
      { replicas := some 1
        selector := [("app", "miner")]
        templateLabels := [("app", "miner")]
        templateChainName := "c1"
        deletePolicy := "Random" }
    status :=
      { replicas := 0
        fullyLabeledReplicas := 0
        readyReplicas := 0
        availableReplicas := 0
        observedGeneration := 0
        conditions := [] } }

/-- A running, fully-labeled, generation-converged Miner for witnesses. -/
def demoRunningMiner : Miner :=
  { demoMiner with
    labels := [("app", "miner")]
    status := { demoMiner.status with phase := "Running", observedGeneration := 1 } }

/-- A Miner already mid-deletion, for scale-down witnesses. -/
def demoDeletingMiner : Miner :=
  { demoRunningMiner with name := "m2", deletionTimestamp := some 3 }

/-- A selector-matching Miner with no controller owner reference. -/
def demoOrphanMiner : Miner :=
  { demoRunningMiner with name := "orphan", ownerReferences := [] }

/-- A selector-matching Miner already controlled by a different MinerSet. -/
def demoForeignMiner : Miner :=
  { demoRunningMiner with
    name := "foreign"
    ownerReferences := [⟨"MinerSet", "other", "uid-other", true, true⟩] }

/-- A MinerSet whose optional `spec.replicas` field is unset. -/
def demoNilMinerSet : MinerSet :=
  { demoMinerSet with spec := { demoMinerSet.spec with replicas := none } }

/-- A Miner being deleted whose spec sets the pod-deletion timeout to 0. -/
def demoZeroTimeoutMiner : Miner :=
  { demoMiner with
    deletionTimestamp := some 7
    finalizers := ["miner.onex.io/finalizer"]
    spec := { demoMiner.spec with podDeletionTimeout := some 0 } }

/-- A fresh Chain `g1` (size class small), not yet reconciled. -/
def demoChain : Chain :=
  { name := "g1"
    nspace := "default"
    uid := "uid-g1"
    generation := 1
    finalizers := []
    deletionTimestamp := none
    spec := { displayName := "", minerType := "small", image := "img" }
    status :=
      { configMapRef := none
        minerRef := none
        observedGeneration := 0
        conditions := [] } }

/-- An empty, error-free store slice for the chain controller. -/
def demoEmptyWorld : ChainReconciler.ChainWorld :=
  { configMaps := [], miners := [], cmListErr := false, minerListErr := false }

/-- A store slice whose ConfigMap List call fails. -/
def demoBadWorld : ChainReconciler.ChainWorld :=
  { configMaps := [], miners := [], cmListErr := true, minerListErr := false }

/-- Concrete running-and-ready pod used by witnesses. -/
def demoPodReady : Pod :=
  { name := "m1"
    nspace := "default"
    labels := []
    ownerReferences := []
    image := "nginx"
    command := []
    restartPolicy := "Always"
    phase := "Running"
    conditions := [("Ready", "True")]
    podIPs := ["10.0.0.1"]
    message := "" }

/-! ## Theorems -/

theorem mem_setCondition {l : List Condition} {c b : Condition}
    (hb : b ∈ setCondition l c) : b ∈ l ∨ b.ctype = c.ctype := by
  induction l with
  | nil =>
    simp only [setCondition, List.mem_singleton] at hb
    exact Or.inr (hb ▸ rfl)
  | cons x xs ih =>
    by_cases h : x.ctype = c.ctype
    · simp only [setCondition, if_pos h] at hb
      rcases List.mem_cons.mp hb with hb | hb
      · split at hb
        · exact Or.inr (hb ▸ rfl)
        · exact Or.inl (hb ▸ List.mem_cons_self _ _)
      · exact Or.inl (List.mem_cons_of_mem _ hb)
    · simp only [setCondition, if_neg h] at hb
      rcases List.mem_cons.mp hb with hb | hb
      · exact Or.inl (hb ▸ List.mem_cons_self _ _)
      · rcases ih hb with h2 | h2
        · exact Or.inl (List.mem_cons_of_mem _ h2)
        · exact Or.inr h2

theorem setCondition_pairwise {l : List Condition} {c : Condition}
    (hp : typesUnique l) : typesUnique (setCondition l c) := by
  induction l with
  | nil => simp [typesUnique, setCondition]
  | cons x xs ih =>
    rcases List.pairwise_cons.mp hp with ⟨hx, hxs⟩
    by_cases h : x.ctype = c.ctype
    · simp only [setCondition, if_pos h]
      refine List.pairwise_cons.mpr ⟨?_, hxs⟩
      intro b hb
      have hhead :
          (if x.status ≠ c.status ∨ x.reason ≠ c.reason ∨ x.message ≠ c.message
            then c else x).ctype = x.ctype := by
        split
        · exact h.symm
        · rfl
      rw [hhead]
      exact hx b hb
    · simp only [setCondition, if_neg h]
      refine List.pairwise_cons.mpr ⟨?_, ih hxs⟩
      intro b hb
      rcases mem_setCondition hb with h2 | h2
      · exact hx b h2
      · rw [h2]; exact h

theorem setCondition_eq_self {l : List Condition} {c e : Condition}
    (hp : typesUnique l) (he : e ∈ l) (ht : e.ctype = c.ctype)
    (hs : e.status = c.status) (hr : e.reason = c.reason)
    (hm : e.message = c.message) : setCondition l c = l := by
  induction l with
  | nil => cases he
  | cons x xs ih =>
    rcases List.pairwise_cons.mp hp with ⟨hx, hxs⟩
    rcases List.mem_cons.mp he with he | he
    · subst he
      simp only [setCondition, if_pos ht]
      rw [if_neg]
      push_neg
      exact ⟨hs, hr, hm⟩
    · by_cases h : x.ctype = c.ctype
      · exact absurd (h.trans ht.symm) (hx e he)
      · simp only [setCondition, if_neg h]
        rw [ih hxs he]

theorem setCondition_idem (l : List Condition) (c : Condition) :
    setCondition (setCondition l c) c = setCondition l c := by
  induction l with
  | nil =>
    simp [setCondition]
  | cons x xs ih =>
    by_cases h : x.ctype = c.ctype
    · by_cases hd : x.status ≠ c.status ∨ x.reason ≠ c.reason ∨ x.message ≠ c.message
      · simp [setCondition, if_pos h, if_pos hd]
      · push_neg at hd
        simp [setCondition, if_pos h, hd.1, hd.2.1, hd.2.2]
    · simp only [setCondition, if_neg h]
      rw [ih]

theorem lookupLabel_nil (q : String) : lookupLabel [] q = none := rfl

theorem lookupLabel_cons (a : String × String) (l : List (String × String)) (q : String) :
    lookupLabel (a :: l) q = if a.1 = q then some a.2 else lookupLabel l q := by
  unfold lookupLabel
  rw [List.find?_cons]
  by_cases h : a.1 = q <;> simp [h]

theorem lookupLabel_map_overwrite_self (acc : List (String × String)) (k v : String)
    (h : (acc.find? (fun kv => kv.1 = k)).isSome) :
    lookupLabel (acc.map (fun kv => if kv.1 = k then (k, v) else kv)) k = some v := by
  induction acc with
  | nil => simp at h
  | cons a acc ih =>
    rw [List.find?_cons] at h
    by_cases ha : a.1 = k
    · rw [List.map_cons, if_pos ha, lookupLabel_cons, if_pos rfl]
    · rw [List.map_cons, if_neg ha, lookupLabel_cons, if_neg ha]
      have hd : decide (a.1 = k) = false := by simp [ha]
      rw [hd] at h
      exact ih h

theorem lookupLabel_map_overwrite_other (acc : List (String × String)) (k v q : String)
    (hq : q ≠ k) :
    lookupLabel (acc.map (fun kv => if kv.1 = k then (k, v) else kv)) q =
      lookupLabel acc q := by
  induction acc with
  | nil => rfl
  | cons a acc ih =>
    by_cases ha : a.1 = k
    · rw [List.map_cons, if_pos ha, lookupLabel_cons, lookupLabel_cons,
        if_neg (fun h2 : (k, v).1 = q => hq h2.symm), if_neg (fun h2 => hq (ha ▸ h2).symm)]
      exact ih
    · rw [List.map_cons, if_neg ha, lookupLabel_cons, lookupLabel_cons]
      by_cases haq : a.1 = q
      · rw [if_pos haq, if_pos haq]
      · rw [if_neg haq, if_neg haq]
        exact ih

theorem lookupLabel_labelInsert_self (acc : List (String × String)) (k v : String) :
    lookupLabel (labelInsert acc k v) k = some v := by
  unfold labelInsert
  by_cases h : (acc.find? (fun kv => kv.1 = k)).isSome
  · rw [if_pos h]
    exact lookupLabel_map_overwrite_self acc k v h
  · rw [if_neg h]
    unfold lookupLabel
    rw [List.find?_append]
    cases hf : acc.find? (fun kv => kv.1 = k) with
    | none => simp
    | some x => rw [hf] at h; simp at h

theorem lookupLabel_labelInsert_other (acc : List (String × String)) (k v q : String)
    (hq : q ≠ k) :
    lookupLabel (labelInsert acc k v) q = lookupLabel acc q := by
  unfold labelInsert
  by_cases h : (acc.find? (fun kv => kv.1 = k)).isSome
  · rw [if_pos h]
    exact lookupLabel_map_overwrite_other acc k v q hq
  · rw [if_neg h]
    unfold lookupLabel
    rw [List.find?_append]
    have hne : ((k, v).1 = q) = False := by
      simp only [eq_iff_iff, iff_false]
      exact fun h2 => hq h2.symm
    cases hfind : acc.find? (fun kv => kv.1 = q) <;> simp [hfind, hne]

/-- Folding label inserts for bindings whose keys all differ from `q` leaves
the binding of `q` unchanged. -/
theorem lookupLabel_foldl_of_notin (l acc : List (String × String)) (q : String)
    (h : ∀ kv ∈ l, kv.1 ≠ q) :
    lookupLabel (l.foldl (fun acc kv => labelInsert acc kv.1 kv.2) acc) q =
      lookupLabel acc q := by
  induction l generalizing acc with
  | nil => rfl
  | cons a l ih =>
    simp only [List.foldl_cons]
    rw [ih _ (fun kv hkv => h kv (List.mem_cons_of_mem _ hkv)),
      lookupLabel_labelInsert_other _ _ _ _
        (fun h2 => h a (List.mem_cons_self _ _) h2.symm)]

/-- Folding label inserts over a duplicate-free binding list makes every
binding retrievable. -/
theorem lookupLabel_foldl_mem (l acc : List (String × String))
    (hnd : l.Pairwise (fun a b => a.1 ≠ b.1)) :
    ∀ kv ∈ l, lookupLabel (l.foldl (fun acc kv => labelInsert acc kv.1 kv.2) acc) kv.1 =
      some kv.2 := by
  induction l generalizing acc with
  | nil => intro kv hkv; cases hkv
  | cons a l ih =>
    rcases List.pairwise_cons.mp hnd with ⟨ha, hl⟩
    intro kv hkv
    rcases List.mem_cons.mp hkv with hkv | hkv
    · subst hkv
      simp only [List.foldl_cons]
      rw [lookupLabel_foldl_of_notin _ _ _ (fun b hb => (ha b hb).symm),
        lookupLabel_labelInsert_self]
    · exact ih _ hl kv hkv

/-- C10: for a condition list with at most one entry per type, `Set`
preserves that uniqueness (it replaces the entry of the same type or appends
a brand-new type, never duplicating one); and when the incoming condition
matches the stored entry of its type in status, reason and message, the list
is left unchanged — the stored `lastTransitionTime` survives — so `Set` is
idempotent on repeated identical updates. -/
theorem condition_set_uniqueness_idempotent (l : List Condition) (c : Condition)
    (hp : typesUnique l) :
    typesUnique (Set l c) ∧
    Set (Set l c) c = Set l c ∧
    (∀ e ∈ l, e.ctype = c.ctype → e.status = c.status → e.reason = c.reason →
      e.message = c.message → Set l c = l) := by
  refine ⟨setCondition_pairwise hp, setCondition_idem l c, ?_⟩
  intro e he ht hs hr hm
  exact setCondition_eq_self hp he ht hs hr hm

/-- Witness for C10 at a concrete list: the identical update leaves the list
(and the stored transition time 5) unchanged, and uniqueness is preserved. -/
theorem condition_set_uniqueness_idempotent_witness :
    typesUnique (Set demoConds demoCond) ∧ Set demoConds demoCond = demoConds := by
  have h := condition_set_uniqueness_idempotent demoConds demoCond (by decide)
  exact ⟨h.1, h.2.2 ⟨"MinersReady", "True", "", "", 5⟩ (by decide) rfl rfl rfl rfl⟩

theorem createPodSpec_image (m : Miner) :
    (MinerReconciler.createPodSpec m).image =
      if m.spec.minerType = "small" then "nginx:alpine"
      else if m.spec.minerType = "medium" then "nginx"
      else if m.spec.minerType = "large" then "redis:alpine"
      else "busybox" := by
  unfold MinerReconciler.createPodSpec
  by_cases hrp : m.spec.restartPolicy = "" <;> simp [hrp]

theorem createPodSpec_labels (m : Miner) :
    (MinerReconciler.createPodSpec m).labels =
      m.labels.foldl (fun acc kv => labelInsert acc kv.1 kv.2)
        [("app", "miner"), ("miner.onex.io/name", m.name),
         ("chain.onex.io/name", m.spec.chainName)] := by
  unfold MinerReconciler.createPodSpec
  by_cases hrp : m.spec.restartPolicy = "" <;> simp [hrp]

theorem createPodSpec_restartPolicy (m : Miner) :
    (MinerReconciler.createPodSpec m).restartPolicy =
      if m.spec.restartPolicy = "" then "Always" else m.spec.restartPolicy := by
  unfold MinerReconciler.createPodSpec
  by_cases hrp : m.spec.restartPolicy = "" <;> simp [hrp]

/-- C9: `createPodSpec` builds the pod deterministically from the size
class — `small`, `medium` and `large` map to the three fixed images,
anything else (the empty class included) falls back to the default image —
propagates every Miner label onto the pod, and sets the pod restart policy
to that of the Miner, defaulting to `Always` when unset.  The label map of the Miner is
assumed duplicate-free, as Go maps are. -/
theorem createPodSpec_correct (m : Miner)
    (hnd : m.labels.Pairwise (fun a b => a.1 ≠ b.1)) :
    ((m.spec.minerType = "small" →
        (MinerReconciler.createPodSpec m).image = "nginx:alpine") ∧
     (m.spec.minerType = "medium" →
        (MinerReconciler.createPodSpec m).image = "nginx") ∧
     (m.spec.minerType = "large" →
        (MinerReconciler.createPodSpec m).image = "redis:alpine") ∧
     (m.spec.minerType ≠ "small" → m.spec.minerType ≠ "medium" →
        m.spec.minerType ≠ "large" →
        (MinerReconciler.createPodSpec m).image = "busybox")) ∧
    (∀ kv ∈ m.labels,
       lookupLabel (MinerReconciler.createPodSpec m).labels kv.1 = some kv.2) ∧
    (MinerReconciler.createPodSpec m).restartPolicy =
      (if m.spec.restartPolicy = "" then "Always" else m.spec.restartPolicy) := by
  refine ⟨⟨?_, ?_, ?_, ?_⟩, ?_, createPodSpec_restartPolicy m⟩
  · intro h; rw [createPodSpec_image, if_pos h]
  · intro h
    rw [createPodSpec_image, if_neg (by simp [h]), if_pos h]
  · intro h
    rw [createPodSpec_image, if_neg (by simp [h]), if_neg (by simp [h]), if_pos h]
  · intro h1 h2 h3
    rw [createPodSpec_image, if_neg h1, if_neg h2, if_neg h3]
  · intro kv hkv
    rw [createPodSpec_labels]
    exact lookupLabel_foldl_mem m.labels _ hnd kv hkv

/-- Witness for C9 on a concrete Miner: medium maps to its image, the custom
label survives, and the empty restart policy defaults to `Always`. -/
theorem createPodSpec_correct_witness :
    (MinerReconciler.createPodSpec demoMiner).image = "nginx" ∧
    lookupLabel (MinerReconciler.createPodSpec demoMiner).labels "team" = some "core" ∧
    (MinerReconciler.createPodSpec demoMiner).restartPolicy = "Always" := by
  have h := createPodSpec_correct demoMiner (by decide)
  exact ⟨h.1.2.1 rfl, h.2.1 ("team", "core") (by decide), h.2.2⟩

theorem get_set_self (l : List Condition) (c : Condition) :
    ∃ e, Get (Set l c) c.ctype = some e ∧ e.status = c.status ∧
      e.reason = c.reason ∧ e.message = c.message := by
  induction l with
  | nil =>
    refine ⟨c, ?_, rfl, rfl, rfl⟩
    have hc : decide (c.ctype = c.ctype) = true := by simp
    unfold Set setCondition Get
    rw [List.find?_cons, hc]
  | cons x xs ih =>
    by_cases h : x.ctype = c.ctype
    · simp only [Set, setCondition, if_pos h]
      by_cases hd : x.status ≠ c.status ∨ x.reason ≠ c.reason ∨ x.message ≠ c.message
      · refine ⟨c, ?_, rfl, rfl, rfl⟩
        have hc : decide (c.ctype = c.ctype) = true := by simp
        rw [if_pos hd]
        unfold Get
        rw [List.find?_cons, hc]
      · push_neg at hd
        refine ⟨x, ?_, hd.1, hd.2.1, hd.2.2⟩
        have hn : ¬ (x.status ≠ c.status ∨ x.reason ≠ c.reason ∨ x.message ≠ c.message) := by
          rw [hd.1, hd.2.1, hd.2.2]; simp
        have hc : decide (x.ctype = c.ctype) = true := by simp [h]
        rw [if_neg hn]
        simp only [Get, List.find?_cons, hc]
    · rcases ih with ⟨e, he, hs, hr, hm⟩
      refine ⟨e, ?_, hs, hr, hm⟩
      have hc : decide (x.ctype = c.ctype) = false := by simp [h]
      simp only [Set, setCondition, if_neg h, Get, List.find?_cons, hc]
      exact he

theorem get_set_other (l : List Condition) (c : Condition) (t : String)
    (ht : t ≠ c.ctype) : Get (Set l c) t = Get l t := by
  induction l with
  | nil =>
    have hc : decide (c.ctype = t) = false := by
      simp only [decide_eq_false_iff_not]
      exact fun h2 => ht h2.symm
    simp only [Set, setCondition, Get, List.find?_cons, hc, List.find?_nil]
  | cons x xs ih =>
    by_cases h : x.ctype = c.ctype
    · have hx : decide (x.ctype = t) = false := by
        simp only [decide_eq_false_iff_not]
        exact fun h2 => ht (h.symm.trans h2).symm
      have hy : decide ((if x.status ≠ c.status ∨ x.reason ≠ c.reason ∨
          x.message ≠ c.message then c else x).ctype = t) = false := by
        split
        · simp only [decide_eq_false_iff_not]
          exact fun h2 => ht h2.symm
        · exact hx
      simp only [Set, setCondition, if_pos h, Get, List.find?_cons, hy, hx]
    · simp only [Set, setCondition, if_neg h, Get, List.find?_cons]
      cases hx : decide (x.ctype = t) with
      | true => rfl
      | false => exact ih

/-- C5: for a Miner with no deletion intent, `syncPodStatus` derives phase
and conditions solely from the observed pod state: pod absent ⇒ `Pending`
with PodHealthy False/`PodNotFound`; pod running but not ready ⇒
`Provisioning` with PodHealthy False/`Provisioning`; pod running and ready ⇒
`Running` with PodHealthy and BootstrapReady True and the address list taken
from the reported pod IPs; pod failed ⇒ `Failed` with PodHealthy
False/`Failed` and a non-nil failure reason taken from the pod message,
falling back to `"Pod failed"` when the message is empty. -/
theorem syncPodStatus_phase_derivation (now : Nat) (m : Miner) (p : Pod)
    (hdel : m.deletionTimestamp = none) :
    ((MinerReconciler.syncPodStatus now m none).status.phase = "Pending" ∧
     conditionIs (MinerReconciler.syncPodStatus now m none).status.conditions
       "PodHealthy" "False" "PodNotFound") ∧
    (p.phase = "Running" → MinerReconciler.isPodReady p = false →
      (MinerReconciler.syncPodStatus now m (some p)).status.phase = "Provisioning" ∧
      conditionIs (MinerReconciler.syncPodStatus now m (some p)).status.conditions
        "PodHealthy" "False" "Provisioning") ∧
    (p.phase = "Running" → MinerReconciler.isPodReady p = true →
      (MinerReconciler.syncPodStatus now m (some p)).status.phase = "Running" ∧
      conditionIs (MinerReconciler.syncPodStatus now m (some p)).status.conditions
        "PodHealthy" "True" "" ∧
      conditionIs (MinerReconciler.syncPodStatus now m (some p)).status.conditions
        "BootstrapReady" "True" "" ∧
      (MinerReconciler.syncPodStatus now m (some p)).status.addresses = p.podIPs) ∧
    (p.phase = "Failed" →
      (MinerReconciler.syncPodStatus now m (some p)).status.phase = "Failed" ∧
      conditionIs (MinerReconciler.syncPodStatus now m (some p)).status.conditions
        "PodHealthy" "False" "Failed" ∧
      (p.message = "" →
        (MinerReconciler.syncPodStatus now m (some p)).status.failureReason =
          some "Pod failed") ∧
      (p.message ≠ "" →
        (MinerReconciler.syncPodStatus now m (some p)).status.failureReason =
          some p.message)) := by
  refine ⟨⟨rfl, ?_⟩, ?_, ?_, ?_⟩
  · rcases get_set_self m.status.conditions
        (FalseCondition "PodHealthy" "PodNotFound" "Pod not found" now) with
      ⟨e, he, hs, hr, _⟩
    exact ⟨e, he, hs, hr⟩
  · intro h1 h2
    simp only [MinerReconciler.syncPodStatus]
    rw [if_pos h1, if_neg (by simp [h2])]
    refine ⟨rfl, ?_⟩
    rcases get_set_self m.status.conditions
        (FalseCondition "PodHealthy" "Provisioning" "Pod is not ready yet" now) with
      ⟨e, he, hs, hr, _⟩
    exact ⟨e, he, hs, hr⟩
  · intro h1 h2
    simp only [MinerReconciler.syncPodStatus]
    rw [if_pos h1, if_pos (by simp [h2])]
    refine ⟨rfl, ?_, ?_, rfl⟩
    · rcases get_set_self (Set m.status.conditions (TrueCondition "PodHealthy" now))
          (TrueCondition "BootstrapReady" now) with ⟨f, hf, _, _, _⟩
      rcases get_set_self m.status.conditions (TrueCondition "PodHealthy" now) with
        ⟨e, he, hs, hr, _⟩
      refine ⟨e, ?_, hs, hr⟩
      have hother :=
        get_set_other (Set m.status.conditions (TrueCondition "PodHealthy" now))
          (TrueCondition "BootstrapReady" now) "PodHealthy" (by simp [TrueCondition])
      exact hother.trans he
    · rcases get_set_self (Set m.status.conditions (TrueCondition "PodHealthy" now))
          (TrueCondition "BootstrapReady" now) with ⟨e, he, hs, hr, _⟩
      exact ⟨e, he, hs, hr⟩
  · intro h1
    simp only [MinerReconciler.syncPodStatus]
    rw [if_neg (by rw [h1]; decide), if_neg (by rw [h1]; decide), if_pos h1]
    refine ⟨rfl, ?_, ?_, ?_⟩
    · rcases get_set_self m.status.conditions
          (FalseCondition "PodHealthy" "Failed" "Pod failed" now) with
        ⟨e, he, hs, hr, _⟩
      exact ⟨e, he, hs, hr⟩
    · intro hm
      simp [hm]
    · intro hm
      simp [hm]

/-- Witness for C5: on a concrete Miner whose pod is running and ready the
derived phase is `Running`, both conditions are True and the addresses come
from the pod. -/
theorem syncPodStatus_phase_derivation_witness :
    (MinerReconciler.syncPodStatus 0 demoMiner (some demoPodReady)).status.phase =
      "Running" ∧
    conditionIs (MinerReconciler.syncPodStatus 0 demoMiner
      (some demoPodReady)).status.conditions "PodHealthy" "True" "" ∧
    (MinerReconciler.syncPodStatus 0 demoMiner (some demoPodReady)).status.addresses =
      demoPodReady.podIPs := by
  have h := syncPodStatus_phase_derivation 0 demoMiner demoPodReady rfl
  have h3 := h.2.2.1 rfl (by decide)
  exact ⟨h3.1, h3.2.1, h3.2.2.2⟩

/-- C4: `updateStatus` sets `status.replicas` to the filtered list length,
`fullyLabeledReplicas` to the count of Miners whose labels contain every
template label, `readyReplicas` to the count of Miners in phase `Running`,
and `availableReplicas` to the count of running Miners whose observed
generation equals their own metadata generation; when no Miner generation
has drifted, available equals ready; and the `MinersReady` condition is True
exactly when the ready count equals the total count, and otherwise False with
reason `Unavailable`. -/
theorem updateStatus_aggregation (now : Nat) (ms : MinerSet) (miners : List Miner) :
    (MinerSetReconciler.updateStatus now ms miners).status.replicas = miners.length ∧
    (MinerSetReconciler.updateStatus now ms miners).status.fullyLabeledReplicas =
      (miners.filter (fun m => labelsMatch ms.spec.templateLabels m.labels)).length ∧
    (MinerSetReconciler.updateStatus now ms miners).status.readyReplicas =
      (miners.filter (fun m => m.status.phase = "Running")).length ∧
    (MinerSetReconciler.updateStatus now ms miners).status.availableReplicas =
      (miners.filter (fun m =>
        m.status.phase = "Running" ∧ m.status.observedGeneration = m.generation)).length ∧
    ((∀ m ∈ miners, m.status.observedGeneration = m.generation) →
      (MinerSetReconciler.updateStatus now ms miners).status.availableReplicas =
        (MinerSetReconciler.updateStatus now ms miners).status.readyReplicas) ∧
    ((miners.filter (fun m => m.status.phase = "Running")).length = miners.length →
      conditionIs (MinerSetReconciler.updateStatus now ms miners).status.conditions
        "MinersReady" "True" "") ∧
    ((miners.filter (fun m => m.status.phase = "Running")).length ≠ miners.length →
      conditionIs (MinerSetReconciler.updateStatus now ms miners).status.conditions
        "MinersReady" "False" "Unavailable") := by
  refine ⟨rfl, rfl, rfl, rfl, ?_, ?_, ?_⟩
  · intro hall
    have hcong : ∀ m ∈ miners,
        (decide (m.status.phase = "Running" ∧ m.status.observedGeneration = m.generation)) =
          (decide (m.status.phase = "Running")) := by
      intro m hm
      simp [hall m hm]
    simp only [MinerSetReconciler.updateStatus]
    rw [List.filter_congr hcong]
  · intro h
    simp only [MinerSetReconciler.updateStatus]
    rw [if_pos h]
    rcases get_set_self ms.status.conditions (TrueCondition "MinersReady" now) with
      ⟨e, he, hs, hr, _⟩
    exact ⟨e, he, hs, hr⟩
  · intro h
    simp only [MinerSetReconciler.updateStatus]
    rw [if_neg h]
    rcases get_set_self ms.status.conditions
        (FalseCondition "MinersReady" "Unavailable" "Not all miners are ready" now) with
      ⟨e, he, hs, hr, _⟩
    exact ⟨e, he, hs, hr⟩

/-- Witness for C4 on one converged running Miner: total 1, available equals
ready, `MinersReady` True. -/
theorem updateStatus_aggregation_witness :
    (MinerSetReconciler.updateStatus 0 demoMinerSet [demoRunningMiner]).status.replicas = 1 ∧
    (MinerSetReconciler.updateStatus 0 demoMinerSet
        [demoRunningMiner]).status.availableReplicas =
      (MinerSetReconciler.updateStatus 0 demoMinerSet
        [demoRunningMiner]).status.readyReplicas ∧
    conditionIs (MinerSetReconciler.updateStatus 0 demoMinerSet
        [demoRunningMiner]).status.conditions "MinersReady" "True" "" := by
  have h := updateStatus_aggregation 0 demoMinerSet [demoRunningMiner]
  refine ⟨h.1, ?_, ?_⟩
  · refine h.2.2.2.2.1 ?_
    intro m hm
    rcases List.mem_singleton.mp hm with rfl
    decide
  · exact h.2.2.2.2.2.1 (by decide)

theorem deleteMiners_eq_filter (l : List Miner) :
    MinerSetReconciler.deleteMiners l = l.filter (fun m => m.deletionTimestamp = none) := by
  induction l with
  | nil => rfl
  | cons m rest ih =>
    by_cases h : m.deletionTimestamp = none
    · simp [MinerSetReconciler.deleteMiners, h, ih]
    · simp [MinerSetReconciler.deleteMiners, h, ih]

/-- C6: with a surplus (`r < len`), `getMinersToDelete` selects exactly
`len - r` Miners — the first `len - r` in listed order for `Newest`, the
last `len - r` for `Oldest`, and the first `len - r` for `Random` or any
other (unset included) policy value — and `deleteMiners` issues deletes only
for selected Miners whose deletion timestamp is still zero, skipping the
rest. -/
theorem getMinersToDelete_policy (ms : MinerSet) (miners : List Miner) (r : Nat)
    (hsurplus : r < miners.length) :
    (MinerSetReconciler.getMinersToDelete ms miners (miners.length - r)).length =
      miners.length - r ∧
    (ms.spec.deletePolicy = "Newest" →
      MinerSetReconciler.getMinersToDelete ms miners (miners.length - r) =
        miners.take (miners.length - r)) ∧
    (ms.spec.deletePolicy = "Oldest" →
      MinerSetReconciler.getMinersToDelete ms miners (miners.length - r) =
        miners.drop r) ∧
    (ms.spec.deletePolicy ≠ "Newest" → ms.spec.deletePolicy ≠ "Oldest" →
      MinerSetReconciler.getMinersToDelete ms miners (miners.length - r) =
        miners.take (miners.length - r)) ∧
    MinerSetReconciler.deleteMiners
        (MinerSetReconciler.getMinersToDelete ms miners (miners.length - r)) =
      (MinerSetReconciler.getMinersToDelete ms miners (miners.length - r)).filter
        (fun m => m.deletionTimestamp = none) := by
  refine ⟨?_, ?_, ?_, ?_, deleteMiners_eq_filter _⟩ <;>
    unfold MinerSetReconciler.getMinersToDelete <;>
    by_cases hle : miners.length ≤ miners.length - r
  · have hr0 : r = 0 := by omega
    subst hr0
    rw [if_pos hle]
    omega
  · rw [if_neg hle]
    by_cases hN : ms.spec.deletePolicy = "Newest"
    · rw [if_pos hN, List.length_take]
      omega
    · rw [if_neg hN]
      by_cases hO : ms.spec.deletePolicy = "Oldest"
      · rw [if_pos hO, List.length_drop]
        omega
      · rw [if_neg hO, List.length_take]
        omega
  · intro hN
    have hr0 : r = 0 := by omega
    subst hr0
    rw [if_pos hle]
    simp
  · intro hN
    rw [if_neg hle, if_pos hN]
  · intro hO
    have hr0 : r = 0 := by omega
    subst hr0
    rw [if_pos hle]
    simp
  · intro hO
    rw [if_neg hle, if_neg (by rw [hO]; decide), if_pos hO]
    have hdr : miners.length - (miners.length - r) = r := by omega
    rw [hdr]
  · intro h1 h2
    have hr0 : r = 0 := by omega
    subst hr0
    rw [if_pos hle]
    simp
  · intro h1 h2
    rw [if_neg hle, if_neg h1, if_neg h2]

/-- Witness for C6: scaling two listed Miners down to one under the `Random`
policy selects the front Miner; a mid-deletion selected Miner would be
skipped by the filter. -/
theorem getMinersToDelete_policy_witness :
    (MinerSetReconciler.getMinersToDelete demoMinerSet
        [demoRunningMiner, demoDeletingMiner] 1).length = 1 ∧
    MinerSetReconciler.getMinersToDelete demoMinerSet
        [demoRunningMiner, demoDeletingMiner] 1 = [demoRunningMiner] ∧
    MinerSetReconciler.deleteMiners [demoRunningMiner, demoDeletingMiner] =
      [demoRunningMiner, demoDeletingMiner].filter
        (fun m => m.deletionTimestamp = none) := by
  have h := getMinersToDelete_policy demoMinerSet
    [demoRunningMiner, demoDeletingMiner] 1 (by decide)
  exact ⟨h.1, h.2.2.2.1 (by decide) (by decide), deleteMiners_eq_filter _⟩

/-- C7: the filter loop keeps exactly the selector-matched Miners that are
not controlled by a different owner and are either already owned or
successfully adopted: a Miner controlled by another owner is dropped (never
adopted, counted or touched); an orphan whose adoption patch succeeds is kept
in adopted form — adoption only appends a controller owner reference for this
MinerSet, leaving every other field intact, and makes the Miner controlled by
this MinerSet — and an orphan whose patch fails is skipped for the pass while
the loop continues over the remaining Miners without failing. -/
theorem filterMiners_adoption (ms : MinerSet) (patchOk : Miner → Bool)
    (miners : List Miner) :
    MinerSetReconciler.filterMiners ms patchOk miners =
      (miners.filter (fun m => !MinerSetReconciler.shouldExcludeMiner ms m &&
          ((getControllerOf m.ownerReferences).isSome || patchOk m))).map
        (fun m => if getControllerOf m.ownerReferences = none
            then MinerSetReconciler.adoptOrphan ms m else m) ∧
    (∀ m, getControllerOf m.ownerReferences = none →
      getControllerOf (MinerSetReconciler.adoptOrphan ms m).ownerReferences =
        some (MinerSetReconciler.newControllerRef ms) ∧
      isControlledBy (MinerSetReconciler.adoptOrphan ms m).ownerReferences ms.uid = true ∧
      (MinerSetReconciler.adoptOrphan ms m).ownerReferences =
        m.ownerReferences ++ [MinerSetReconciler.newControllerRef ms] ∧
      (MinerSetReconciler.adoptOrphan ms m).name = m.name ∧
      (MinerSetReconciler.adoptOrphan ms m).labels = m.labels ∧
      (MinerSetReconciler.adoptOrphan ms m).spec = m.spec ∧
      (MinerSetReconciler.adoptOrphan ms m).status = m.status) ∧
    (∀ m rest, getControllerOf m.ownerReferences = none → patchOk m = false →
      MinerSetReconciler.filterMiners ms patchOk (m :: rest) =
        MinerSetReconciler.filterMiners ms patchOk rest) := by
  refine ⟨?_, ?_, ?_⟩
  · induction miners with
    | nil => rfl
    | cons m rest ih =>
      by_cases hex : MinerSetReconciler.shouldExcludeMiner ms m = true
      · simp [MinerSetReconciler.filterMiners, hex, ih]
      · rw [Bool.not_eq_true] at hex
        by_cases horph : getControllerOf m.ownerReferences = none
        · by_cases hok : patchOk m = true
          · simp [MinerSetReconciler.filterMiners, hex, horph, hok, ih]
          · rw [Bool.not_eq_true] at hok
            simp [MinerSetReconciler.filterMiners, hex, horph, hok, ih]
        · have hsome : (getControllerOf m.ownerReferences).isSome = true := by
            rwa [Option.isSome_iff_ne_none]
          simp [MinerSetReconciler.filterMiners, hex, horph, hsome, ih]
  · intro m horph
    have hctrl : getControllerOf (MinerSetReconciler.adoptOrphan ms m).ownerReferences =
        some (MinerSetReconciler.newControllerRef ms) := by
      unfold MinerSetReconciler.adoptOrphan getControllerOf
      rw [List.find?_append]
      unfold getControllerOf at horph
      rw [horph]
      rfl
    refine ⟨hctrl, ?_, rfl, rfl, rfl, rfl, rfl⟩
    unfold isControlledBy
    rw [hctrl]
    simp [MinerSetReconciler.newControllerRef]
  · intro m rest horph hok
    simp [MinerSetReconciler.filterMiners, MinerSetReconciler.shouldExcludeMiner,
      horph, hok]

/-- Witness for C7: with one orphan and one foreign-owned Miner, the filtered
list is exactly the adopted orphan, and the adopted orphan is controlled by
the adopting MinerSet. -/
theorem filterMiners_adoption_witness :
    MinerSetReconciler.filterMiners demoMinerSet (fun _ => true)
        [demoOrphanMiner, demoForeignMiner] =
      [MinerSetReconciler.adoptOrphan demoMinerSet demoOrphanMiner] ∧
    isControlledBy (MinerSetReconciler.adoptOrphan demoMinerSet
        demoOrphanMiner).ownerReferences demoMinerSet.uid = true := by
  have h := filterMiners_adoption demoMinerSet (fun _ => true)
    [demoOrphanMiner, demoForeignMiner]
  exact ⟨h.1.trans (by decide), (h.2.1 demoOrphanMiner (by decide)).2.1⟩

/-- C8 counterexample: a MinerSet whose `spec.replicas` is unset makes
`syncReplicas` return an error instead of resolving a default, so a missing
optional spec field does cause a reconciliation error. -/
theorem syncReplicas_nil_replicas_counterexample :
    MinerSetReconciler.syncReplicas 0 demoNilMinerSet [] =
      .error "Replicas field in MinerSet spec is nil" := rfl

/-- C8 amended: for every MinerSet whose `spec.replicas` field is unset,
`syncReplicas` returns the error `"Replicas field in MinerSet spec is nil"`
instead of resolving a default. -/
theorem syncReplicas_nil_replicas_errors (now : Nat) (ms : MinerSet)
    (miners : List Miner) (h : ms.spec.replicas = none) :
    MinerSetReconciler.syncReplicas now ms miners =
      .error "Replicas field in MinerSet spec is nil" := by
  unfold MinerSetReconciler.syncReplicas
  rw [h]

/-- Witness for the amended C8 at a concrete nil-replicas MinerSet. -/
theorem syncReplicas_nil_replicas_errors_witness :
    demoNilMinerSet.spec.replicas = none ∧
    MinerSetReconciler.syncReplicas 3 demoNilMinerSet [demoRunningMiner] =
      .error "Replicas field in MinerSet spec is nil" :=
  ⟨rfl, syncReplicas_nil_replicas_errors 3 demoNilMinerSet [demoRunningMiner] rfl⟩

/-- C2 counterexample: on a store whose ConfigMap listing fails, the chain
reconcile pass returns the first-phase error but the `reconcileMiner` phase
is never attempted in that pass — refuting the claim that a first-phase
failure does not prevent the second phase from being attempted. -/
theorem chain_reconcile_second_phase_skipped_counterexample :
    (ChainReconciler.reconcile 0 demoBadWorld demoChain).err.isSome = true ∧
    "reconcileMiner" ∉ (ChainReconciler.reconcile 0 demoBadWorld demoChain).phasesRun := by
  decide

/-- C2 amended: in a chain reconcile pass on a non-deleting Chain the phases
run in listed order, and a failure of the first
(ensure-configuration-artifact) phase is returned as an error immediately and
prevents the second (ensure-singleton-unit) phase from being attempted in
that same pass; both phases are attempted only when the first succeeds. -/
theorem chain_reconcile_first_phase_aborts (now : Nat)
    (w : ChainReconciler.ChainWorld) (chain : Chain) (herr : w.cmListErr = true) :
    (ChainReconciler.reconcile now w chain).err.isSome = true ∧
    (ChainReconciler.reconcile now w chain).phasesRun = ["reconcileConfigMap"] := by
  unfold ChainReconciler.reconcile ChainReconciler.reconcileConfigMap
    ChainReconciler.IsConfigMapReconciled
  rw [herr]
  exact ⟨rfl, rfl⟩

/-- Witness for the amended C2 at the concrete failing store. -/
theorem chain_reconcile_first_phase_aborts_witness :
    (ChainReconciler.reconcile 0 demoBadWorld demoChain).phasesRun =
      ["reconcileConfigMap"] :=
  (chain_reconcile_first_phase_aborts 0 demoBadWorld demoChain rfl).2

/-- C1 (code evaluation at the failing input): one reconcile pass on the
fresh Chain `g1` over an empty, error-free store returns success, sets
`ConfigMapsCreated` and `MinersCreated` to True and stamps the status
references, yet issues no store Create at all: afterwards the store still
holds zero ConfigMaps and zero Miners (and the recorded ConfigMap reference
is the never-generated empty name), contradicting the claim that exactly one
ConfigMap and one Miner exist, both owner-referencing the chain. -/
theorem chain_reconcile_creates_nothing :
    (ChainReconciler.reconcile 0 demoEmptyWorld demoChain).err = none ∧
    (ChainReconciler.reconcile 0 demoEmptyWorld demoChain).world.configMaps.length = 0 ∧
    (ChainReconciler.reconcile 0 demoEmptyWorld demoChain).world.miners.length = 0 ∧
    conditionIs (ChainReconciler.reconcile 0 demoEmptyWorld
      demoChain).chain.status.conditions "ConfigMapsCreated" "True" "" ∧
    conditionIs (ChainReconciler.reconcile 0 demoEmptyWorld
      demoChain).chain.status.conditions "MinersCreated" "True" "" ∧
    (ChainReconciler.reconcile 0 demoEmptyWorld demoChain).chain.status.configMapRef =
      some "" ∧
    (ChainReconciler.reconcile 0 demoEmptyWorld demoChain).chain.status.minerRef =
      some "g1" := by
  decide

/-- C3 (code evaluation at the failing input): deleting a Miner whose
`podDeletionTimeout` is 0 while its pod is present and every delete attempt
fails surfaces the deadline error after exactly one (the immediate) poll
attempt and records `MinerDeletionFailed` — and even a pod whose deletion
would succeed from the second attempt on is never retried — contradicting
the documented semantics that a zero timeout retries indefinitely and never
times out. -/
theorem reconcileDelete_zero_timeout_times_out :
    (MinerReconciler.reconcileDelete 0 demoZeroTimeoutMiner (some demoPodReady)
        (fun _ => false)).2 = some "context deadline exceeded" ∧
    numPollAttempts 2 0 = 1 ∧
    conditionIs (MinerReconciler.reconcileDelete 0 demoZeroTimeoutMiner
        (some demoPodReady) (fun _ => false)).1.status.conditions
      "PodHealthy" "False" "MinerDeletionFailed" ∧
    (MinerReconciler.reconcileDelete 0 demoZeroTimeoutMiner (some demoPodReady)
        (fun n => decide (1 ≤ n))).2 = some "context deadline exceeded" := by
  decide
